import Mathlib

/-!
Verification of the consensus core of the `rusk` repository against its
natural-language specification.

The Lean definitions below are a shallow embedding of the Rust sources:

* `src/node-data/src/encoding.rs` — wire (de)serialization of ledger and
  message types (`Block`, `Header`, `Transaction`, `SpentTransaction`,
  `Certificate`, `IterationsInfo`, `Label`, `Ratification`,
  `ValidationResult`, `QuorumType`, `RatificationResult`, `StepVotes`);
* `src/consensus/src/agreement/accumulator.rs` — the vote accumulator
  (`Accumulator::accumulate`, worker pool semantics);
* `src/consensus/src/quorum/verifiers.rs` — `verify_votes`,
  `verify_step_votes`, `verify_step_signature`;
* `src/consensus/src/msg_handler.rs` — `MsgHandler::is_valid`;
* `src/node/src/chain/acceptor.rs` — `Acceptor::rolling_finality` and
  `Acceptor::try_revert`.

Bytes are modelled as natural numbers (a well-formed byte is `< 256`);
machine integers are natural numbers with explicit range side conditions
where overflow matters; fallible Rust code returns `Option`/`Except`, and a
Rust `panic!` is modelled as a distinguished outcome where the distinction
between panicking and returning an error is load-bearing.

Definitions whose Rust source lives outside the files of this repository
snapshot (e.g. helper types from `node-data/src/ledger.rs` or
`user/committee.rs`) are modelled from the specification; each such
definition carries a doc comment starting with `Modelled from the spec:`.

The file is laid out as: all definitions first, then all theorems.
-/

namespace Rusk

/-! ## Byte-level primitives (little-endian integers, fixed-width reads)

These model `Serializable::{read_u8, read_u32_le, read_u64_le, read_bytes}`
and `to_le_bytes` from `node-data/src/encoding.rs` and its `Serializable`
helpers. -/

/-- Little-endian digits of `n`, exactly `k` bytes (`n.to_le_bytes()` for a
`k`-byte Rust integer; a larger `n` is truncated modulo `256^k`, as a Rust
`as` cast does). -/
def toLE : Nat → Nat → List Nat
  | 0, _ => []
  | k + 1, n => n % 256 :: toLE k (n / 256)

/-- Recombine little-endian digits into a natural number. -/
def fromLE : List Nat → Nat
  | [] => 0
  | b :: bs => b + 256 * fromLE bs

/-- Split off the first `n` bytes of a stream; `none` models an `io::Error`
from `read_exact` when the stream is too short. -/
def splitN : Nat → List Nat → Option (List Nat × List Nat)
  | 0, bs => some ([], bs)
  | _ + 1, [] => none
  | n + 1, b :: bs =>
    match splitN n bs with
    | some (xs, rest) => some (b :: xs, rest)
    | none => none

/-- Read a `k`-byte little-endian unsigned integer from the stream. -/
def readLE (k : Nat) (bs : List Nat) : Option (Nat × List Nat) :=
  match splitN k bs with
  | some (xs, rest) => some (fromLE xs, rest)
  | none => none

/-- Concatenate the encodings of a list of values (the `for t in ... write`
loops of `encoding.rs`). -/
def writeList (write : α → List Nat) : List α → List Nat
  | [] => []
  | x :: xs => write x ++ writeList write xs

/-- Read `n` consecutive values (the `(0..count).map(|_| read)` loops of
`encoding.rs`). -/
def readList (readOne : List Nat → Option (α × List Nat)) :
    Nat → List Nat → Option (List α × List Nat)
  | 0, bs => some ([], bs)
  | n + 1, bs =>
    match readOne bs with
    | none => none
    | some (x, bs') =>
      match readList readOne n bs' with
      | none => none
      | some (xs, rest) => some (x :: xs, rest)

/-! ## Wire types (`node-data/src/encoding.rs`)

Fixed-size byte strings (hashes, signatures, keys) are plain `List Nat`
with a length side condition in the well-formedness predicates. -/

/-- Modelled from the spec: the `Vote` enum of `node-data/src/message.rs`
(not part of this source snapshot): `Valid(hash) | Invalid(hash) | NoQuorum
| NoCandidate`, tag-discriminated on the wire, `Valid`/`Invalid` carrying a
32-byte hash. -/
inductive Vote
  | NoCandidate
  | Valid (hash : List Nat)
  | Invalid (hash : List Nat)
  | NoQuorum
deriving DecidableEq

/-- Modelled from the spec: wire encoding of `Vote` (tag byte, then the
32-byte hash for `Valid`/`Invalid`). -/
def Vote.write : Vote → List Nat
  | .NoCandidate => [0]
  | .Valid h => [1] ++ h
  | .Invalid h => [2] ++ h
  | .NoQuorum => [3]

/-- Modelled from the spec: decoder for `Vote`; unknown tags are malformed. -/
def Vote.read (bs : List Nat) : Option (Vote × List Nat) :=
  match bs with
  | [] => none
  | 0 :: rest => some (.NoCandidate, rest)
  | 1 :: rest =>
    match splitN 32 rest with
    | some (h, rest') => some (.Valid h, rest')
    | none => none
  | 2 :: rest =>
    match splitN 32 rest with
    | some (h, rest') => some (.Invalid h, rest')
    | none => none
  | 3 :: rest => some (.NoQuorum, rest)
  | _ :: _ => none

def Vote.wf : Vote → Prop
  | .NoCandidate => True
  | .Valid h => h.length = 32
  | .Invalid h => h.length = 32
  | .NoQuorum => True

instance : DecidablePred Vote.wf := by
  intro v; cases v <;> simp [Vote.wf] <;> infer_instance

/-- `StepVotes` from `node-data/src/ledger.rs`: a `u64` bitset and a 48-byte
aggregate signature; its `Serializable` impl is in `encoding.rs`. -/
structure StepVotes where
  bitset : Nat
  aggregate_signature : List Nat
deriving DecidableEq

/-- `impl Serializable for StepVotes`: `bitset` as `u64` LE, then the raw
48-byte signature. -/
def StepVotes.write (sv : StepVotes) : List Nat :=
  toLE 8 sv.bitset ++ sv.aggregate_signature

def StepVotes.read (bs : List Nat) : Option (StepVotes × List Nat) :=
  match readLE 8 bs with
  | none => none
  | some (bitset, bs') =>
    match splitN 48 bs' with
    | none => none
    | some (sig, rest) => some (⟨bitset, sig⟩, rest)

def StepVotes.wf (sv : StepVotes) : Prop :=
  sv.bitset < 2 ^ 64 ∧ sv.aggregate_signature.length = 48

instance (sv : StepVotes) : Decidable sv.wf := by
  unfold StepVotes.wf; infer_instance

/-- `RatificationResult` (`Fail(vote)` tag 0, `Success(vote)` tag 1). -/
inductive RatificationResult
  | Fail (v : Vote)
  | Success (v : Vote)
deriving DecidableEq

/-- `impl Serializable for RatificationResult`. -/
def RatificationResult.write : RatificationResult → List Nat
  | .Fail v => [0] ++ v.write
  | .Success v => [1] ++ v.write

def RatificationResult.read (bs : List Nat) :
    Option (RatificationResult × List Nat) :=
  match bs with
  | [] => none
  | 0 :: rest =>
    match Vote.read rest with
    | some (v, rest') => some (.Fail v, rest')
    | none => none
  | 1 :: rest =>
    match Vote.read rest with
    | some (v, rest') => some (.Success v, rest')
    | none => none
  | _ :: _ => none

def RatificationResult.wf : RatificationResult → Prop
  | .Fail v => v.wf
  | .Success v => v.wf

instance : DecidablePred RatificationResult.wf := by
  intro r; cases r <;> simp [RatificationResult.wf] <;> infer_instance

/-- `Certificate` from `node-data/src/ledger.rs`: a `RatificationResult`
and the validation/ratification `StepVotes`. -/
structure Certificate where
  result : RatificationResult
  validation : StepVotes
  ratification : StepVotes
deriving DecidableEq

/-- `impl Serializable for Certificate`. -/
def Certificate.write (c : Certificate) : List Nat :=
  c.result.write ++ c.validation.write ++ c.ratification.write

def Certificate.read (bs : List Nat) : Option (Certificate × List Nat) :=
  match RatificationResult.read bs with
  | none => none
  | some (result, bs') =>
    match StepVotes.read bs' with
    | none => none
    | some (validation, bs'') =>
      match StepVotes.read bs'' with
      | none => none
      | some (ratification, rest) =>
        some (⟨result, validation, ratification⟩, rest)

def Certificate.wf (c : Certificate) : Prop :=
  c.result.wf ∧ c.validation.wf ∧ c.ratification.wf

instance (c : Certificate) : Decidable c.wf := by
  unfold Certificate.wf; infer_instance

/-- `IterationsInfo` from `node-data/src/ledger.rs`: per failed iteration,
an optional `(Certificate, 96-byte generator pubkey)` pair. -/
structure IterationsInfo where
  cert_list : List (Option (Certificate × List Nat))
deriving DecidableEq

/-- One entry of `IterationsInfo::write`: presence byte, then certificate
and raw public-key bytes. -/
def IterationsInfo.writeEntry : Option (Certificate × List Nat) → List Nat
  | none => [0]
  | some (cert, pk) => [1] ++ cert.write ++ pk

/-- One entry of `IterationsInfo::read`: presence byte `0`/`1`; any other
value is an `InvalidData` error. The public key is read as a fixed 96-byte
array (`PublicKeyBytes`). -/
def IterationsInfo.readEntry (bs : List Nat) :
    Option (Option (Certificate × List Nat) × List Nat) :=
  match bs with
  | [] => none
  | 0 :: rest => some (none, rest)
  | 1 :: rest =>
    match Certificate.read rest with
    | none => none
    | some (cert, bs') =>
      match splitN 96 bs' with
      | none => none
      | some (pk, rest') => some (some (cert, pk), rest')
  | _ :: _ => none

/-- `impl Serializable for IterationsInfo`: the `cert_list.len() as u8`
count (truncating to one byte), then the entries. -/
def IterationsInfo.write (ii : IterationsInfo) : List Nat :=
  toLE 1 ii.cert_list.length ++ writeList IterationsInfo.writeEntry ii.cert_list

def IterationsInfo.read (bs : List Nat) : Option (IterationsInfo × List Nat) :=
  match readLE 1 bs with
  | none => none
  | some (count, bs') =>
    match readList IterationsInfo.readEntry count bs' with
    | none => none
    | some (entries, rest) => some (⟨entries⟩, rest)

def IterationsInfo.wfEntry : Option (Certificate × List Nat) → Prop
  | none => True
  | some (cert, pk) => cert.wf ∧ pk.length = 96

instance : DecidablePred IterationsInfo.wfEntry := by
  intro e
  rcases e with _ | ⟨cert, pk⟩ <;> simp [IterationsInfo.wfEntry] <;>
    infer_instance

def IterationsInfo.wf (ii : IterationsInfo) : Prop :=
  ii.cert_list.length < 256 ∧ ∀ e ∈ ii.cert_list, IterationsInfo.wfEntry e

instance (ii : IterationsInfo) : Decidable ii.wf := by
  unfold IterationsInfo.wf; infer_instance

/-- `Label` from `node-data/src/ledger.rs` (`Accepted`, `Attested`,
`Final`). -/
inductive Label
  | Accepted
  | Attested
  | Final
deriving DecidableEq

/-- The `u8` discriminant used by `(*self) as u8` in
`impl Serializable for Label` (fixed by `impl From<u8> for Label`). -/
def Label.toU8 : Label → Nat
  | .Accepted => 0
  | .Attested => 1
  | .Final => 2

/-- `impl Serializable for Label::write`: the single discriminant byte. -/
def Label.write (l : Label) : List Nat := [l.toU8]

/-- Outcome of a read that may also panic (`panic!` in `From<u8> for
Label`, distinct from returning an `io::Error`). -/
inductive ReadOutcome (α : Type)
  | ok (a : α) (rest : List Nat)
  | ioErr
  | panicked
deriving DecidableEq

/-- `impl Serializable for Label::read`: reads one byte and converts via
`Label::from(u8)`, which maps `0/1/2` and panics on any other value. -/
def Label.read (bs : List Nat) : ReadOutcome Label :=
  match bs with
  | [] => .ioErr
  | 0 :: rest => .ok .Accepted rest
  | 1 :: rest => .ok .Attested rest
  | 2 :: rest => .ok .Final rest
  | _ :: _ => .panicked

/-- `Transaction` from `node-data/src/ledger.rs`. The inner
`execution_core::Transaction` is abstracted by its serialized bytes
(`inner.to_var_bytes()`); `PhoenixTransaction::from_slice` is modelled as
succeeding on exactly those bytes. -/
structure Transaction where
  version : Nat
  txType : Nat
  payload : List Nat
deriving DecidableEq

/-- `impl Serializable for Transaction`: `version`/`type` as `u32` LE, then
`write_var_le_bytes32` (a `u32` length prefix and the payload). -/
def Transaction.write (t : Transaction) : List Nat :=
  toLE 4 t.version ++ toLE 4 t.txType ++ toLE 4 t.payload.length ++ t.payload

def Transaction.read (bs : List Nat) : Option (Transaction × List Nat) :=
  match readLE 4 bs with
  | none => none
  | some (version, bs₁) =>
    match readLE 4 bs₁ with
    | none => none
    | some (txType, bs₂) =>
      match readLE 4 bs₂ with
      | none => none
      | some (len, bs₃) =>
        match splitN len bs₃ with
        | none => none
        | some (payload, rest) => some (⟨version, txType, payload⟩, rest)

def Transaction.wf (t : Transaction) : Prop :=
  t.version < 2 ^ 32 ∧ t.txType < 2 ^ 32 ∧ t.payload.length < 2 ^ 32

instance (t : Transaction) : Decidable t.wf := by
  unfold Transaction.wf; infer_instance

/-- Modelled from the spec: `rusk_abi::ECO_MODE_LEN`, the fixed byte width
of the serialized `EconomicMode`; external to this snapshot, fixed here as
an arbitrary positive constant (no claim depends on its value). -/
def ECO_MODE_LEN : Nat := 17

/-- `SpentTransaction` from `node-data/src/ledger.rs`. The error string is
abstracted by its UTF-8 bytes (`e.as_bytes()` / `String::from_utf8`). -/
structure SpentTransaction where
  inner : Transaction
  block_height : Nat
  gas_spent : Nat
  economic_mode : List Nat
  err : Option (List Nat)
deriving DecidableEq

/-- `impl Serializable for SpentTransaction::write`: inner transaction,
`block_height`/`gas_spent` as `u64` LE, the fixed-width economic mode,
then — for `Some(e)` — a `u32` length prefix and the error bytes, but for
`None` — `0u64`, i.e. eight zero bytes. -/
def SpentTransaction.write (st : SpentTransaction) : List Nat :=
  st.inner.write ++ toLE 8 st.block_height ++ toLE 8 st.gas_spent ++
    st.economic_mode ++
    (match st.err with
     | some e => toLE 4 e.length ++ e
     | none => toLE 8 0)

/-- `impl Serializable for SpentTransaction::read`: reads a `u32` error
length (four bytes), then that many error bytes when positive. -/
def SpentTransaction.read (bs : List Nat) :
    Option (SpentTransaction × List Nat) :=
  match Transaction.read bs with
  | none => none
  | some (inner, bs₁) =>
    match readLE 8 bs₁ with
    | none => none
    | some (block_height, bs₂) =>
      match readLE 8 bs₂ with
      | none => none
      | some (gas_spent, bs₃) =>
        match splitN ECO_MODE_LEN bs₃ with
        | none => none
        | some (economic_mode, bs₄) =>
          match readLE 4 bs₄ with
          | none => none
          | some (error_len, bs₅) =>
            if error_len > 0 then
              match splitN error_len bs₅ with
              | none => none
              | some (e, rest) =>
                some (⟨inner, block_height, gas_spent, economic_mode,
                  some e⟩, rest)
            else
              some (⟨inner, block_height, gas_spent, economic_mode,
                none⟩, bs₅)

def SpentTransaction.wf (st : SpentTransaction) : Prop :=
  st.inner.wf ∧ st.block_height < 2 ^ 64 ∧ st.gas_spent < 2 ^ 64 ∧
    st.economic_mode.length = ECO_MODE_LEN ∧
    ∀ e, st.err = some e → 0 < e.length ∧ e.length < 2 ^ 32

instance (st : SpentTransaction) : Decidable st.wf := by
  unfold SpentTransaction.wf; infer_instance

/-- `Header` from `node-data/src/ledger.rs`. Field widths: 32-byte hashes,
48-byte seed, 96-byte generator key. -/
structure Header where
  height : Nat
  timestamp : Nat
  prev_block_hash : List Nat
  seed : List Nat
  generator_bls_pubkey : List Nat
  state_hash : List Nat
  event_hash : List Nat
  iteration : Nat
  failed_iterations : IterationsInfo
  cert : Certificate
  hash : List Nat
deriving DecidableEq

/-- Modelled from the spec: `Header::marshal_hashable` (defined in
`node-data/src/ledger.rs`, outside this snapshot) — the little-endian
concatenation of the hashable header fields listed in the data model:
height, timestamp, previous hash, seed, generator key, state hash,
event hash, iteration and failed iterations. -/
def Header.marshal_hashable (h : Header) : List Nat :=
  toLE 8 h.height ++ toLE 8 h.timestamp ++ h.prev_block_hash ++ h.seed ++
    h.generator_bls_pubkey ++ h.state_hash ++ h.event_hash ++
    toLE 1 h.iteration ++ h.failed_iterations.write

/-- Modelled from the spec: `Header::unmarshal_hashable`, the reader
matching `marshal_hashable`. -/
def Header.unmarshal_hashable (bs : List Nat) :
    Option (Header × List Nat) :=
  match readLE 8 bs with
  | none => none
  | some (height, bs₁) =>
    match readLE 8 bs₁ with
    | none => none
    | some (timestamp, bs₂) =>
      match splitN 32 bs₂ with
      | none => none
      | some (prev_block_hash, bs₃) =>
        match splitN 48 bs₃ with
        | none => none
        | some (seed, bs₄) =>
          match splitN 96 bs₄ with
          | none => none
          | some (generator, bs₅) =>
            match splitN 32 bs₅ with
            | none => none
            | some (state_hash, bs₆) =>
              match splitN 32 bs₆ with
              | none => none
              | some (event_hash, bs₇) =>
                match readLE 1 bs₇ with
                | none => none
                | some (iteration, bs₈) =>
                  match IterationsInfo.read bs₈ with
                  | none => none
                  | some (failed_iterations, rest) =>
                    some (⟨height, timestamp, prev_block_hash, seed,
                      generator, state_hash, event_hash, iteration,
                      failed_iterations,
                      ⟨.Fail .NoCandidate, ⟨0, []⟩, ⟨0, []⟩⟩, []⟩, rest)

/-- `impl Serializable for Header::write`: the hashable fields, then the
certificate, then the 32-byte block hash. -/
def Header.write (h : Header) : List Nat :=
  h.marshal_hashable ++ h.cert.write ++ h.hash

/-- `impl Serializable for Header::read`: `unmarshal_hashable`, then the
certificate and the 32-byte hash. -/
def Header.read (bs : List Nat) : Option (Header × List Nat) :=
  match Header.unmarshal_hashable bs with
  | none => none
  | some (h, bs₁) =>
    match Certificate.read bs₁ with
    | none => none
    | some (cert, bs₂) =>
      match splitN 32 bs₂ with
      | none => none
      | some (hash, rest) =>
        some ({ h with cert := cert, hash := hash }, rest)

def Header.wf (h : Header) : Prop :=
  h.height < 2 ^ 64 ∧ h.timestamp < 2 ^ 64 ∧ h.prev_block_hash.length = 32 ∧
    h.seed.length = 48 ∧ h.generator_bls_pubkey.length = 96 ∧
    h.state_hash.length = 32 ∧ h.event_hash.length = 32 ∧
    h.iteration < 256 ∧ h.failed_iterations.wf ∧ h.cert.wf ∧
    h.hash.length = 32

instance (h : Header) : Decidable h.wf := by
  unfold Header.wf; infer_instance

/-- `Block` from `node-data/src/ledger.rs`: header plus transactions. -/
structure Block where
  header : Header
  txs : List Transaction
deriving DecidableEq

/-- `impl Serializable for Block`: header, `u32` transaction count, then
the transactions. -/
def Block.write (b : Block) : List Nat :=
  b.header.write ++ toLE 4 b.txs.length ++ writeList Transaction.write b.txs

def Block.read (bs : List Nat) : Option (Block × List Nat) :=
  match Header.read bs with
  | none => none
  | some (header, bs₁) =>
    match readLE 4 bs₁ with
    | none => none
    | some (count, bs₂) =>
      match readList Transaction.read count bs₂ with
      | none => none
      | some (txs, rest) => some (⟨header, txs⟩, rest)

def Block.wf (b : Block) : Prop :=
  b.header.wf ∧ b.txs.length < 2 ^ 32 ∧ ∀ t ∈ b.txs, t.wf

instance (b : Block) : Decidable b.wf := by
  unfold Block.wf; infer_instance

/-- Modelled from the spec: `QuorumType` of `node-data/src/message.rs`
(outside this snapshot); four discriminants, read back via `From<u8>`,
with unknown discriminants malformed. -/
inductive QuorumType
  | ValidQuorum
  | InvalidQuorum
  | NoQuorum
  | NoCandidate
deriving DecidableEq

def QuorumType.toU8 : QuorumType → Nat
  | .ValidQuorum => 0
  | .InvalidQuorum => 1
  | .NoQuorum => 2
  | .NoCandidate => 3

/-- `impl Serializable for QuorumType::write`: `*self as u8`. -/
def QuorumType.write (q : QuorumType) : List Nat := [q.toU8]

def QuorumType.read (bs : List Nat) : Option (QuorumType × List Nat) :=
  match bs with
  | [] => none
  | 0 :: rest => some (.ValidQuorum, rest)
  | 1 :: rest => some (.InvalidQuorum, rest)
  | 2 :: rest => some (.NoQuorum, rest)
  | 3 :: rest => some (.NoCandidate, rest)
  | _ :: _ => none

/-- `ValidationResult` from `node-data/src/message.rs`: step votes, a vote
and a quorum type; its `Serializable` impl is in `encoding.rs`. -/
structure ValidationResult where
  sv : StepVotes
  vote : Vote
  quorum : QuorumType
deriving DecidableEq

/-- `impl Serializable for ValidationResult`. -/
def ValidationResult.write (vr : ValidationResult) : List Nat :=
  vr.sv.write ++ vr.vote.write ++ vr.quorum.write

def ValidationResult.read (bs : List Nat) :
    Option (ValidationResult × List Nat) :=
  match StepVotes.read bs with
  | none => none
  | some (sv, bs₁) =>
    match Vote.read bs₁ with
    | none => none
    | some (vote, bs₂) =>
      match QuorumType.read bs₂ with
      | none => none
      | some (quorum, rest) => some (⟨sv, vote, quorum⟩, rest)

def ValidationResult.wf (vr : ValidationResult) : Prop :=
  vr.sv.wf ∧ vr.vote.wf

instance (vr : ValidationResult) : Decidable vr.wf := by
  unfold ValidationResult.wf; infer_instance

/-- Modelled from the spec: `ConsensusHeader` of `node-data/src/message.rs`
(outside this snapshot): previous block hash, round, iteration. -/
structure ConsensusHeader where
  prev_block_hash : List Nat
  round : Nat
  iteration : Nat
deriving DecidableEq

/-- Modelled from the spec: wire encoding of `ConsensusHeader` (32-byte
previous hash, `u64` round, `u8` iteration). -/
def ConsensusHeader.write (ch : ConsensusHeader) : List Nat :=
  ch.prev_block_hash ++ toLE 8 ch.round ++ toLE 1 ch.iteration

def ConsensusHeader.read (bs : List Nat) :
    Option (ConsensusHeader × List Nat) :=
  match splitN 32 bs with
  | none => none
  | some (prev, bs₁) =>
    match readLE 8 bs₁ with
    | none => none
    | some (round, bs₂) =>
      match readLE 1 bs₂ with
      | none => none
      | some (iteration, rest) => some (⟨prev, round, iteration⟩, rest)

def ConsensusHeader.wf (ch : ConsensusHeader) : Prop :=
  ch.prev_block_hash.length = 32 ∧ ch.round < 2 ^ 64 ∧ ch.iteration < 256

instance (ch : ConsensusHeader) : Decidable ch.wf := by
  unfold ConsensusHeader.wf; infer_instance

/-- Modelled from the spec: `SignInfo` of `node-data/src/message.rs`
(outside this snapshot): the 96-byte signer key and 48-byte signature. -/
structure SignInfo where
  signer : List Nat
  signature : List Nat
deriving DecidableEq

/-- Modelled from the spec: wire encoding of `SignInfo`. -/
def SignInfo.write (si : SignInfo) : List Nat :=
  si.signer ++ si.signature

def SignInfo.read (bs : List Nat) : Option (SignInfo × List Nat) :=
  match splitN 96 bs with
  | none => none
  | some (signer, bs₁) =>
    match splitN 48 bs₁ with
    | none => none
    | some (signature, rest) => some (⟨signer, signature⟩, rest)

def SignInfo.wf (si : SignInfo) : Prop :=
  si.signer.length = 96 ∧ si.signature.length = 48

instance (si : SignInfo) : Decidable si.wf := by
  unfold SignInfo.wf; infer_instance

/-- `Ratification` payload from `node-data/src/message.rs`; its
`Serializable` impl is in `encoding.rs`: consensus header, vote, `u64`
timestamp, validation result, and the signature info at the end. -/
structure Ratification where
  header : ConsensusHeader
  vote : Vote
  timestamp : Nat
  validation_result : ValidationResult
  sign_info : SignInfo
deriving DecidableEq

/-- `impl Serializable for Ratification`. -/
def Ratification.write (r : Ratification) : List Nat :=
  r.header.write ++ r.vote.write ++ toLE 8 r.timestamp ++
    r.validation_result.write ++ r.sign_info.write

def Ratification.read (bs : List Nat) : Option (Ratification × List Nat) :=
  match ConsensusHeader.read bs with
  | none => none
  | some (header, bs₁) =>
    match Vote.read bs₁ with
    | none => none
    | some (vote, bs₂) =>
      match readLE 8 bs₂ with
      | none => none
      | some (timestamp, bs₃) =>
        match ValidationResult.read bs₃ with
        | none => none
        | some (vr, bs₄) =>
          match SignInfo.read bs₄ with
          | none => none
          | some (si, rest) => some (⟨header, vote, timestamp, vr, si⟩, rest)

def Ratification.wf (r : Ratification) : Prop :=
  r.header.wf ∧ r.vote.wf ∧ r.timestamp < 2 ^ 64 ∧
    r.validation_result.wf ∧ r.sign_info.wf

instance (r : Ratification) : Decidable r.wf := by
  unfold Ratification.wf; infer_instance

/-- Modelled from the spec: the `Validation` payload of
`node-data/src/message.rs` (outside this snapshot): consensus header, the
vote, and the signature info. -/
structure Validation where
  header : ConsensusHeader
  vote : Vote
  sign_info : SignInfo
deriving DecidableEq

/-- Modelled from the spec: wire encoding of `Validation`. -/
def Validation.write (v : Validation) : List Nat :=
  v.header.write ++ v.vote.write ++ v.sign_info.write

def Validation.read (bs : List Nat) : Option (Validation × List Nat) :=
  match ConsensusHeader.read bs with
  | none => none
  | some (header, bs₁) =>
    match Vote.read bs₁ with
    | none => none
    | some (vote, bs₂) =>
      match SignInfo.read bs₂ with
      | none => none
      | some (si, rest) => some (⟨header, vote, si⟩, rest)

def Validation.wf (v : Validation) : Prop :=
  v.header.wf ∧ v.vote.wf ∧ v.sign_info.wf

instance (v : Validation) : Decidable v.wf := by
  unfold Validation.wf; infer_instance

/-- Modelled from the spec: the `Candidate` payload of
`node-data/src/message.rs` (outside this snapshot): consensus header, the
candidate block, and the signature info. -/
structure Candidate where
  header : ConsensusHeader
  candidate : Block
  sign_info : SignInfo
deriving DecidableEq

/-- Modelled from the spec: wire encoding of `Candidate`. -/
def Candidate.write (c : Candidate) : List Nat :=
  c.header.write ++ c.candidate.write ++ c.sign_info.write

def Candidate.read (bs : List Nat) : Option (Candidate × List Nat) :=
  match ConsensusHeader.read bs with
  | none => none
  | some (header, bs₁) =>
    match Block.read bs₁ with
    | none => none
    | some (blk, bs₂) =>
      match SignInfo.read bs₂ with
      | none => none
      | some (si, rest) => some (⟨header, blk, si⟩, rest)

def Candidate.wf (c : Candidate) : Prop :=
  c.header.wf ∧ c.candidate.wf ∧ c.sign_info.wf

instance (c : Candidate) : Decidable c.wf := by
  unfold Candidate.wf; infer_instance

/-! ## Accumulator (`consensus/src/agreement/accumulator.rs`)

Hashes, steps, public keys and `Agreement` payloads are abstracted by
natural-number identities (only equality of these values matters to
`accumulate`). The store `HashMap<Hash, HashMap<u8, (HashSet<Agreement>,
usize)>>` is a function from `(block_hash, step)` to the pair of the
stored payload set (a duplicate-free list) and the cumulative weight, with
`([], 0)` as the `or_insert` default. -/

/-- The parts of a `messages::Message` that `accumulate` inspects:
`header.{block_hash, round, step, pubkey_bls}` and the payload, which is
`some p` exactly for `Payload::Agreement(p)`. The zero block hash
(`[0; 32]`) is modelled as hash `0`. -/
structure AccMsg where
  block_hash : Nat
  round : Nat
  step : Nat
  pubkey_bls : Nat
  payload : Option Nat
deriving DecidableEq

/-- The view of `CommitteeSet` that `accumulate` takes under the mutex:
`votes_for(pubkey, cfg)` and `quorum(cfg)`, where `cfg` is derived from
`(seed, round, step, 64)`; with the seed fixed for the round, a config is
determined by `(round, step)`. Modelled from the spec: `CommitteeSet`
lives in `user/committee.rs`, outside this snapshot. -/
structure CommitteeView where
  votes_for : Nat → Nat → Nat → Option Nat
  quorum : Nat → Nat → Nat

/-- The shared store of agreements per `(block_hash, step)`. -/
def AccStore := Nat → Nat → (List Nat × Nat)

/-- The empty store (`StorePerHash::default()`). -/
def AccStore.empty : AccStore := fun _ _ => ([], 0)

/-- `Accumulator::accumulate`: weight lookup (`None` and weight `0` are
rejected), duplicate suppression, weight update, and the quorum test. The
returned `Bool` is whether a `CollectedVotes` message is produced
(`Some(Message::empty())`). -/
def accumulate (cv : CommitteeView) (stores : AccStore) (msg : AccMsg) :
    AccStore × Bool :=
  match cv.votes_for msg.round msg.step msg.pubkey_bls with
  | none => (stores, false)
  | some weight =>
    if weight = 0 then (stores, false)
    else
      let target_quorum := cv.quorum msg.round msg.step
      match msg.payload with
      | none => (stores, false)
      | some payload =>
        let entry := stores msg.block_hash msg.step
        if payload ∈ entry.1 then (stores, false)
        else
          let entry' := (payload :: entry.1, entry.2 + weight)
          (fun h s =>
            if h = msg.block_hash ∧ s = msg.step then entry'
            else stores h s,
           decide (entry'.2 ≥ target_quorum))

/-- One worker-pool execution of `spawn_workers_pool`: messages are taken
from the shared queue one at a time (mutation of `stores` is serialized by
its mutex); a message with the zero block hash is discarded, a message
failing `verify_agreement` (abstracted by `verOk`) is discarded, and a
worker that crosses the quorum sends `CollectedVotes` on the output
channel and `break`s out of its loop, so one fewer worker remains. When no
worker remains, the rest of the queue is never processed. Returns the
`(block_hash, step)` pairs of the emitted `CollectedVotes` messages, in
order. -/
def runPool (cv : CommitteeView) (verOk : AccMsg → Bool) :
    Nat → AccStore → List AccMsg → List (Nat × Nat)
  | _, _, [] => []
  | 0, _, _ :: _ => []
  | alive + 1, stores, msg :: rest =>
    if msg.block_hash = 0 then runPool cv verOk (alive + 1) stores rest
    else if verOk msg then
      let out := accumulate cv stores msg
      if out.2 then
        (msg.block_hash, msg.step) :: runPool cv verOk alive out.1 rest
      else runPool cv verOk (alive + 1) out.1 rest
    else runPool cv verOk (alive + 1) stores rest

/-! ## Quorum verifiers (`consensus/src/quorum/verifiers.rs`) -/

/-- `StepName` (`node_data::StepName`). -/
inductive StepName
  | Proposal
  | Validation
  | Ratification
deriving DecidableEq

/-- `StepSigError` (`consensus/src/commons.rs`); BLS library errors are
collapsed into `InvalidSignature`. -/
inductive StepSigError
  | VoteSetTooSmall
  | EmptyApk
  | InvalidType
  | InvalidSignature
deriving DecidableEq

/-- Modelled from the spec: a `Committee` (`user/committee.rs`, outside
this snapshot) is the sortition-ordered list of `(member, occurrences)`;
`Sum(weight) = committee_size`. Members are abstracted by naturals. -/
structure Committee where
  members : List (Nat × Nat)
deriving DecidableEq

/-- Modelled from the spec: total stake-occurrences of a committee (its
`size`, since the occurrences of a full committee sum to the committee
size). -/
def Committee.totalCredits (c : Committee) : Nat :=
  (c.members.map Prod.snd).sum

/-- Modelled from the spec: super-majority quorum `⌈2·size/3⌉ + 1`. -/
def Committee.superMajorityQuorum (c : Committee) : Nat :=
  (2 * c.totalCredits + 2) / 3 + 1

/-- Modelled from the spec: simple-majority quorum. -/
def Committee.majorityQuorum (c : Committee) : Nat :=
  c.totalCredits / 2 + 1

/-- Modelled from the spec: `Committee::intersect(bitset)` — the
sub-committee of members whose position in the committee has its bit set
in the `u64` bitset. -/
def Committee.intersect (c : Committee) (bitset : Nat) : List (Nat × Nat) :=
  (c.members.enum.filter (fun p => bitset.testBit p.1)).map Prod.snd

/-- Modelled from the spec: `Committee::total_occurrences` — the summed
stake-occurrences of a sub-committee. -/
def Committee.total_occurrences (sub : List (Nat × Nat)) : Nat :=
  (sub.map Prod.snd).sum

/-- `QuorumResult` (`verifiers.rs`). -/
structure QuorumResult where
  total : Nat
  target_quorum : Nat
deriving DecidableEq

/-- `QuorumResult::quorum_reached`. -/
def QuorumResult.quorum_reached (qr : QuorumResult) : Bool :=
  decide (qr.total ≥ qr.target_quorum)

/-- `Cluster::aggregate_pks` (`verifiers.rs`): an empty sub-committee is
`EmptyApk`; otherwise the members' keys are aggregated, with the BLS
aggregation abstracted by `agg`. -/
def aggregate_pks (agg : List Nat → Nat) (sub : List (Nat × Nat)) :
    Except StepSigError Nat :=
  match sub.map Prod.fst with
  | [] => .error .EmptyApk
  | pk :: rest => .ok (agg (pk :: rest))

/-- Modelled from the spec: `payload::Validation::SIGN_SEED`, an external
domain-separation constant (its value is irrelevant to the claims). -/
def VALIDATION_SIGN_SEED : List Nat := [0]

/-- Modelled from the spec: `payload::Ratification::SIGN_SEED`. -/
def RATIFICATION_SIGN_SEED : List Nat := [1]

/-- `verify_step_signature` (`verifiers.rs`): picks the step's sign seed
(`Proposal` is `InvalidType`), assembles `signable_header || SIGN_SEED ||
encoded(vote)` and checks the aggregate signature; signature
deserialization plus BLS verification are abstracted by the boolean
`blsVerify apk signature message`. -/
def verify_step_signature (blsVerify : Nat → List Nat → List Nat → Bool)
    (header : ConsensusHeader) (step : StepName) (vote : Vote) (apk : Nat)
    (signature : List Nat) : Except StepSigError Unit :=
  match step with
  | .Proposal => .error .InvalidType
  | _ =>
    let sign_seed :=
      match step with
      | .Validation => VALIDATION_SIGN_SEED
      | _ => RATIFICATION_SIGN_SEED
    let msg := header.write ++ sign_seed ++ vote.write
    if blsVerify apk signature msg then .ok () else .error .InvalidSignature

/-- `verify_votes` (`verifiers.rs`): intersects the committee with the
bitset, sums occurrences, compares against the vote-dependent quorum
(skipped only for a `NoQuorum` Validation), and — when the bitset is
non-zero — aggregates the participating keys and checks the step
signature. -/
def verify_votes (agg : List Nat → Nat)
    (blsVerify : Nat → List Nat → List Nat → Bool)
    (header : ConsensusHeader) (step : StepName) (vote : Vote)
    (step_votes : StepVotes) (committee : Committee) :
    Except StepSigError QuorumResult :=
  let bitset := step_votes.bitset
  let signature := step_votes.aggregate_signature
  let sub_committee := committee.intersect bitset
  let total := Committee.total_occurrences sub_committee
  let target_quorum :=
    match vote with
    | .Valid _ => committee.superMajorityQuorum
    | _ => committee.majorityQuorum
  let quorum_result : QuorumResult := ⟨total, target_quorum⟩
  let skip_quorum := step = StepName.Validation ∧ vote = Vote.NoQuorum
  if ¬skip_quorum ∧ ¬quorum_result.quorum_reached then
    .error .VoteSetTooSmall
  else if bitset > 0 then
    match aggregate_pks agg sub_committee with
    | .error e => .error e
    | .ok apk =>
      match verify_step_signature blsVerify header step vote apk signature with
      | .error e => .error e
      | .ok _ => .ok quorum_result
  else .ok quorum_result

/-- Modelled from the spec: `CONSENSUS_MAX_ITER` (`consensus/src/config.rs`,
outside this snapshot); the claims hold for any positive value. -/
def CONSENSUS_MAX_ITER : Nat := 50

/-- The exclusion-list construction of `verify_step_votes` (`verifiers.rs`
lines 82–99): always the generator of `iteration`; additionally the
generator of `iteration + 1` when `iteration < CONSENSUS_MAX_ITER`
(`maxIter` here). `get_generator` abstracts
`provisioners().get_generator(·, seed, round)` with seed and round
fixed. -/
def exclusionList (get_generator : Nat → Nat) (iteration maxIter : Nat) :
    List Nat :=
  let l := [get_generator iteration]
  if iteration < maxIter then l ++ [get_generator (iteration + 1)] else l

/-! ## Message admission (`consensus/src/msg_handler.rs`) -/

/-- `ConsensusError` (`consensus/src/commons.rs`), restricted to the
variants `is_valid` can produce; phase-specific verification failures are
collapsed into `InvalidSignature`. -/
inductive ConsensusError
  | InvalidMsgType
  | PastEvent
  | FutureEvent
  | InvalidPrevBlockHash (h : List Nat)
  | NotCommitteeMember
  | InvalidSignature
deriving DecidableEq

/-- `Status` (`node-data/src/message.rs`). -/
inductive Status
  | Past
  | Present
  | Future
deriving DecidableEq

/-- Modelled from the spec: `Message::compare(round, iteration, step)` of
`node-data/src/message.rs` (outside this snapshot) — the message's
`(round, iteration, step)` against the current position,
lexicographically; steps are compared by their per-iteration ordinal. -/
def msgCompare (msgRound msgIteration msgStep round iteration step : Nat) :
    Status :=
  if msgRound < round then .Past
  else if round < msgRound then .Future
  else if msgIteration < iteration then .Past
  else if iteration < msgIteration then .Future
  else if msgStep < step then .Past
  else if step < msgStep then .Future
  else .Present

/-- The parts of a `Message` that `is_valid` inspects: the optional signer
(`Message::get_signer`), the comparison coordinates, and
`header.prev_block_hash`. -/
structure ConsensusMsg where
  signer : Option Nat
  round : Nat
  iteration : Nat
  step : Nat
  prev_block_hash : List Nat
deriving DecidableEq

/-- `MsgHandler::is_valid` (`msg_handler.rs` lines 32–71): resolves the
signer (`InvalidMsgType` when absent), compares against the current
`(round, iteration, step)`, and for a present message checks the previous
block hash against the tip, committee membership
(`Committee::is_member` modelled as list membership), and finally
delegates to the phase-specific `verify`, abstracted by its result. -/
def is_valid (msg : ConsensusMsg) (ruRound : Nat) (ruHash : List Nat)
    (iteration step : Nat) (committee : List Nat)
    (verify : Except ConsensusError Unit) : Except ConsensusError Unit :=
  match msg.signer with
  | none => .error .InvalidMsgType
  | some signer =>
    match msgCompare msg.round msg.iteration msg.step ruRound iteration
        step with
    | .Past => .error .PastEvent
    | .Present =>
      if msg.prev_block_hash ≠ ruHash then
        .error (.InvalidPrevBlockHash msg.prev_block_hash)
      else if signer ∉ committee then .error .NotCommitteeMember
      else verify
    | .Future => .error .FutureEvent

/-! ## Rolling finality (`node/src/chain/acceptor.rs`) -/

/-- Modelled from the spec: `CONSENSUS_ROLLING_FINALITY_THRESHOLD`
(`consensus/src/config.rs`, outside this snapshot); the claims hold for
any value. -/
def CONSENSUS_ROLLING_FINALITY_THRESHOLD : Nat := 5

/-- The heights `(target..current).rev()`, i.e. `current - 1` down to
`target`. -/
def revRange (target current : Nat) : List Nat :=
  (List.range (current - target)).map (fun i => current - 1 - i)

/-- The ancestor scan of `Acceptor::rolling_finality`: per height, fetch
its label (a missing label is the fatal
`panic!("Cannot find block label")`, modelled as the error case); a
`Final` label `break`s out — falling through to `Label::Final`; an
`Accepted` label returns `Label::Attested`; an `Attested` label continues
the scan; exhausting the window yields `Label::Final`. -/
def scanLabels (labels : Nat → Option Label) :
    List Nat → Except Unit Label
  | [] => .ok .Final
  | h :: rest =>
    match labels h with
    | none => .error ()
    | some .Final => .ok .Final
    | some .Accepted => .ok .Attested
    | some .Attested => scanLabels labels rest

/-- `Acceptor::rolling_finality` (`acceptor.rs` lines 576–617):
`attested := pni == 0`; `(true, true) → Final`; `(false, _) → Accepted`;
`(true, _)` scans the window `(height - threshold .. height).rev()`
(`checked_sub` saturating to 0). `labels` abstracts
`db.fetch_block_label_by_height`. -/
def rolling_finality (threshold pni : Nat) (tip_is_final : Bool)
    (blockHeight : Nat) (labels : Nat → Option Label) : Except Unit Label :=
  if pni = 0 then
    if tip_is_final then .ok .Final
    else scanLabels labels (revRange (blockHeight - threshold) blockHeight)
  else .ok .Accepted

/-! ## Revert (`node/src/chain/acceptor.rs`) -/

/-- The parts of a ledger block that `try_revert` inspects: its state hash
(abstracted by a natural) and its transactions (abstracted by ids). -/
structure LBlock where
  state_hash : Nat
  txs : List Nat
deriving DecidableEq

/-- The backward walk of `Acceptor::try_revert` (`acceptor.rs` lines
658–696): starting at the current height and while the height is not 0,
fetch the block and its label (a missing one is an error); stop at the
first block whose `state_hash` equals the target — it is not deleted;
otherwise delete the block, resubmit its transactions to the mempool, and
continue one height down. Returns the new tip with its stored label, the
deleted heights in deletion order, and the resubmitted transactions in
submission order; reaching height 0 is the `Err(\"not found\")` case. -/
def revertLoop (blocks : Nat → Option LBlock) (labels : Nat → Option Label)
    (target : Nat) :
    Nat → Except Unit (LBlock × Label × List Nat × List Nat)
  | 0 => .error ()
  | h + 1 =>
    match blocks (h + 1) with
    | none => .error ()
    | some b =>
      match labels (h + 1) with
      | none => .error ()
      | some label =>
        if b.state_hash = target then .ok (b, label, [], [])
        else
          match revertLoop blocks labels target h with
          | .error e => .error e
          | .ok (tb, tl, deleted, mempool) =>
            .ok (tb, tl, (h + 1) :: deleted, b.txs ++ mempool)

/-- `Acceptor::try_revert` after the VM revert produced `target`: the
backward walk, then the final consistency check
`blk.state_hash != target_state_hash` before the walked-to block becomes
the new tip via `update_tip`. -/
def try_revert (blocks : Nat → Option LBlock) (labels : Nat → Option Label)
    (target curr_height : Nat) :
    Except Unit (LBlock × Label × List Nat × List Nat) :=
  match revertLoop blocks labels target curr_height with
  | .error e => .error e
  | .ok (b, l, d, m) =>
    if b.state_hash ≠ target then .error () else .ok (b, l, d, m)

/-- The heights `curr` down to `stop + 1` (the deletion order of a walk
that stops at height `stop`). -/
def descRange : Nat → Nat → List Nat
  | 0, _ => []
  | c + 1, stop => if c + 1 ≤ stop then [] else (c + 1) :: descRange c stop

/-! ## Concrete values used in counterexamples and witnesses -/

/-- An `IterationsInfo` whose `cert_list` has 256 entries: its `u8` count
truncates to 0. -/
def iterInfoBig : IterationsInfo := ⟨List.replicate 256 none⟩

def svEx : StepVotes := ⟨3, List.replicate 48 7⟩

def voteEx : Vote := .Valid (List.replicate 32 9)

def rrEx : RatificationResult := .Success voteEx

def certEx : Certificate := ⟨rrEx, svEx, svEx⟩

def iiEx : IterationsInfo := ⟨[none, some (certEx, List.replicate 96 1)]⟩

def hdrEx : Header :=
  ⟨5, 1000, List.replicate 32 2, List.replicate 48 3, List.replicate 96 4,
    List.replicate 32 5, List.replicate 32 6, 1, iiEx, certEx,
    List.replicate 32 8⟩

def txEx : Transaction := ⟨1, 1, [10, 20]⟩

def blkEx : Block := ⟨hdrEx, [txEx]⟩

def chEx : ConsensusHeader := ⟨List.replicate 32 2, 7, 1⟩

def siEx : SignInfo := ⟨List.replicate 96 4, List.replicate 48 3⟩

def vrEx : ValidationResult := ⟨svEx, voteEx, .ValidQuorum⟩

def ratEx : Ratification := ⟨chEx, voteEx, 99, vrEx, siEx⟩

def valEx : Validation := ⟨chEx, voteEx, siEx⟩

def candEx : Candidate := ⟨chEx, blkEx, siEx⟩

def stEx : SpentTransaction := ⟨txEx, 5, 6, List.replicate ECO_MODE_LEN 0,
  some [65]⟩

/-- A `SpentTransaction` with no error, used for the length-asymmetry
claim. -/
def stC10 : SpentTransaction :=
  ⟨⟨1, 0, []⟩, 0, 0, List.replicate ECO_MODE_LEN 0, none⟩

/-- The value actually produced when a second `SpentTransaction` is decoded
from the stream left 4 bytes short by the first decode of `stC10`. -/
def stC10shifted : SpentTransaction :=
  ⟨⟨0, 1, []⟩, 0, 0, List.replicate ECO_MODE_LEN 0, none⟩

/-- Decode two consecutive `SpentTransaction`s from one stream. -/
def readTwoSpent (bs : List Nat) :
    Option ((SpentTransaction × SpentTransaction) × List Nat) :=
  match SpentTransaction.read bs with
  | none => none
  | some (a, bs') =>
    match SpentTransaction.read bs' with
    | none => none
    | some (b, rest) => some ((a, b), rest)

/-- A committee view in which every key has weight 1 and every quorum
target is 1. -/
def cvC1 : CommitteeView := ⟨fun _ _ _ => some 1, fun _ _ => 1⟩

/-- An agreement message for `(block_hash 1, step 1)` with payload 10. -/
def m1C1 : AccMsg := ⟨1, 1, 1, 1, some 10⟩

/-- A distinct agreement for the same `(block_hash 1, step 1)` pair. -/
def m2C1 : AccMsg := ⟨1, 1, 1, 1, some 20⟩

/-- A store that already contains payload 10 with weight 1 for every
pair. -/
def storeC7 : AccStore := fun _ _ => ([10], 1)

/-- A trivial aggregation function for the quorum-soundness witness. -/
def aggC3 : List Nat → Nat := fun _ => 0

/-- A BLS verifier that accepts everything, for the quorum-soundness
witness. -/
def bvC3 : Nat → List Nat → List Nat → Bool := fun _ _ _ => true

def chC3 : ConsensusHeader := ⟨List.replicate 32 0, 1, 0⟩

def svC3 : StepVotes := ⟨1, List.replicate 48 0⟩

/-- A one-member committee with 3 occurrences: its super-majority quorum is
`⌈2·3/3⌉ + 1 = 3`. -/
def comC3 : Committee := ⟨[(1, 3)]⟩

def hashC3 : List Nat := List.replicate 32 5

/-- A label history with a `Final` block at height 2 directly above an
`Accepted` block at height 1 (all other heights `Attested`). -/
def labelsC2 : Nat → Option Label := fun h =>
  if h = 2 then some .Final else if h = 1 then some .Accepted
  else some .Attested

/-- A three-block ledger whose height-2 block has the target state hash
5. -/
def blocksC5 : Nat → Option LBlock := fun h =>
  if h = 3 then some ⟨7, [31]⟩ else if h = 2 then some ⟨5, [21]⟩
  else if h = 1 then some ⟨9, [11]⟩ else none

def labelsC5 : Nat → Option Label := fun h =>
  if h = 2 then some .Attested else some .Accepted

/-! ## Theorems

First the shared helper lemmas (byte primitives and per-type round-trip
laws), then one theorem per claim. -/

theorem toLE_length (k n : Nat) : (toLE k n).length = k := by
  induction k generalizing n with
  | zero => rfl
  | succ k ih => simp [toLE, ih]

theorem fromLE_toLE (k n : Nat) (h : n < 256 ^ k) : fromLE (toLE k n) = n := by
  induction k generalizing n with
  | zero =>
    simp only [pow_zero, Nat.lt_one_iff] at h
    simp [h, toLE, fromLE]
  | succ k ih =>
    have hdiv : n / 256 < 256 ^ k := by
      rw [Nat.div_lt_iff_lt_mul (by norm_num : 0 < 256)]
      calc n < 256 ^ (k + 1) := h
        _ = 256 ^ k * 256 := by ring
    simp [toLE, fromLE, ih _ hdiv]
    omega

theorem splitN_append (xs rest : List Nat) :
    splitN xs.length (xs ++ rest) = some (xs, rest) := by
  induction xs with
  | nil => rfl
  | cons b bs ih => simp [splitN, ih]

theorem splitN_append_of_length {n : Nat} (xs : List Nat)
    (h : xs.length = n) (rest : List Nat) :
    splitN n (xs ++ rest) = some (xs, rest) := by
  subst h; exact splitN_append xs rest

theorem readLE_toLE (k n : Nat) (h : n < 256 ^ k) (rest : List Nat) :
    readLE k (toLE k n ++ rest) = some (n, rest) := by
  unfold readLE
  rw [splitN_append_of_length _ (toLE_length k n)]
  simp [fromLE_toLE k n h]

theorem toLE_zero (k : Nat) : toLE k 0 = List.replicate k 0 := by
  induction k with
  | zero => rfl
  | succ k ih => simp [toLE, List.replicate, ih]

theorem readList_writeList {α : Type}
    (readOne : List Nat → Option (α × List Nat)) (write : α → List Nat)
    (l : List α) (rest : List Nat)
    (h : ∀ x ∈ l, ∀ r, readOne (write x ++ r) = some (x, r)) :
    readList readOne l.length (writeList write l ++ rest) = some (l, rest) := by
  induction l with
  | nil => rfl
  | cons x xs ih =>
    simp only [writeList, List.length_cons, List.append_assoc]
    unfold readList
    rw [h x (by simp)]
    simp only [ih (fun y hy r => h y (List.mem_cons_of_mem _ hy) r)]

theorem Vote_read_write (v : Vote) (h : v.wf) (rest : List Nat) :
    Vote.read (v.write ++ rest) = some (v, rest) := by
  cases v with
  | NoCandidate => rfl
  | Valid hs =>
    simp only [Vote.wf] at h
    simp [Vote.write, Vote.read, splitN_append_of_length _ h]
  | Invalid hs =>
    simp only [Vote.wf] at h
    simp [Vote.write, Vote.read, splitN_append_of_length _ h]
  | NoQuorum => rfl

theorem StepVotes_read_write (sv : StepVotes) (h : sv.wf) (rest : List Nat) :
    StepVotes.read (sv.write ++ rest) = some (sv, rest) := by
  obtain ⟨h1, h2⟩ := h
  have h1' : sv.bitset < 256 ^ 8 := by norm_num at h1 ⊢; omega
  simp only [StepVotes.write, List.append_assoc]
  unfold StepVotes.read
  rw [readLE_toLE _ _ h1']
  simp [splitN_append_of_length _ h2]

theorem RatificationResult_read_write (r : RatificationResult) (h : r.wf)
    (rest : List Nat) :
    RatificationResult.read (r.write ++ rest) = some (r, rest) := by
  cases r with
  | Fail v =>
    simp only [RatificationResult.wf] at h
    simp [RatificationResult.write, RatificationResult.read,
      Vote_read_write v h rest]
  | Success v =>
    simp only [RatificationResult.wf] at h
    simp [RatificationResult.write, RatificationResult.read,
      Vote_read_write v h rest]

theorem Certificate_read_write (c : Certificate) (h : c.wf)
    (rest : List Nat) :
    Certificate.read (c.write ++ rest) = some (c, rest) := by
  obtain ⟨h1, h2, h3⟩ := h
  simp only [Certificate.write, List.append_assoc]
  unfold Certificate.read
  rw [RatificationResult_read_write _ h1]
  simp only [StepVotes_read_write _ h2, StepVotes_read_write _ h3]

theorem IterationsInfo.readEntry_writeEntry
    (e : Option (Certificate × List Nat)) (h : IterationsInfo.wfEntry e)
    (rest : List Nat) :
    IterationsInfo.readEntry (IterationsInfo.writeEntry e ++ rest) =
      some (e, rest) := by
  rcases e with _ | ⟨cert, pk⟩
  · rfl
  · obtain ⟨h1, h2⟩ := h
    simp only [IterationsInfo.writeEntry, List.append_assoc, List.cons_append,
      List.nil_append]
    simp [IterationsInfo.readEntry, Certificate_read_write _ h1,
      splitN_append_of_length _ h2]

theorem IterationsInfo_read_write (ii : IterationsInfo) (h : ii.wf)
    (rest : List Nat) :
    IterationsInfo.read (ii.write ++ rest) = some (ii, rest) := by
  obtain ⟨h1, h2⟩ := h
  have h1' : ii.cert_list.length < 256 ^ 1 := by simpa using h1
  simp only [IterationsInfo.write, List.append_assoc]
  unfold IterationsInfo.read
  rw [readLE_toLE _ _ h1']
  simp only [readList_writeList IterationsInfo.readEntry
    IterationsInfo.writeEntry ii.cert_list rest
    (fun e he r => IterationsInfo.readEntry_writeEntry e (h2 e he) r)]

theorem Transaction_read_write (t : Transaction) (h : t.wf)
    (rest : List Nat) :
    Transaction.read (t.write ++ rest) = some (t, rest) := by
  obtain ⟨h1, h2, h3⟩ := h
  have h1' : t.version < 256 ^ 4 := by norm_num at h1 ⊢; omega
  have h2' : t.txType < 256 ^ 4 := by norm_num at h2 ⊢; omega
  have h3' : t.payload.length < 256 ^ 4 := by norm_num at h3 ⊢; omega
  simp only [Transaction.write, List.append_assoc]
  unfold Transaction.read
  rw [readLE_toLE _ _ h1']
  simp only [readLE_toLE _ _ h2', readLE_toLE _ _ h3',
    splitN_append t.payload rest]

theorem SpentTransaction_read_write (st : SpentTransaction) (h : st.wf)
    (rest : List Nat) :
    SpentTransaction.read (st.write ++ rest) =
      some (st, (if st.err = none then List.replicate 4 0 else []) ++ rest) := by
  obtain ⟨h1, h2, h3, h4, h5⟩ := h
  have h2' : st.block_height < 256 ^ 8 := by norm_num at h2 ⊢; omega
  have h3' : st.gas_spent < 256 ^ 8 := by norm_num at h3 ⊢; omega
  rcases herr : st.err with _ | e
  · simp only [SpentTransaction.write, herr, List.append_assoc]
    unfold SpentTransaction.read
    rw [Transaction_read_write _ h1]
    simp only [readLE_toLE _ _ h2', readLE_toLE _ _ h3']
    rw [splitN_append_of_length _ h4]
    have : toLE 8 0 = toLE 4 0 ++ List.replicate 4 0 := by decide
    rw [this]
    simp only [List.append_assoc, readLE_toLE 4 0 (by norm_num)]
    have hst : st = ⟨st.inner, st.block_height, st.gas_spent,
        st.economic_mode, none⟩ := by
      cases st; simp_all
    simp [← hst]
  · obtain ⟨he1, he2⟩ := h5 e herr
    have he2' : e.length < 256 ^ 4 := by norm_num at he2 ⊢; omega
    simp only [SpentTransaction.write, herr, List.append_assoc]
    unfold SpentTransaction.read
    rw [Transaction_read_write _ h1]
    simp only [readLE_toLE _ _ h2', readLE_toLE _ _ h3']
    rw [splitN_append_of_length _ h4]
    simp only [readLE_toLE _ _ he2']
    rw [if_pos he1]
    rw [splitN_append e rest]
    have hst : st = ⟨st.inner, st.block_height, st.gas_spent,
        st.economic_mode, some e⟩ := by
      cases st; simp_all
    simp [← hst]

theorem Header_read_write (h : Header) (hw : h.wf) (rest : List Nat) :
    Header.read (h.write ++ rest) = some (h, rest) := by
  obtain ⟨h1, h2, h3, h4, h5, h6, h7, h8, h9, h10, h11⟩ := hw
  have h1' : h.height < 256 ^ 8 := by norm_num at h1 ⊢; omega
  have h2' : h.timestamp < 256 ^ 8 := by norm_num at h2 ⊢; omega
  have h8' : h.iteration < 256 ^ 1 := by simpa using h8
  obtain ⟨height, timestamp, prev, seed, gen, st, ev, iter, fi, cert, hs⟩ := h
  simp only at h1' h2' h3 h4 h5 h6 h7 h8' h9 h10 h11 ⊢
  simp only [Header.write, Header.marshal_hashable, List.append_assoc]
  unfold Header.read Header.unmarshal_hashable
  simp only [readLE_toLE _ _ h1', readLE_toLE _ _ h2',
    splitN_append_of_length _ h3, splitN_append_of_length _ h4,
    splitN_append_of_length _ h5, splitN_append_of_length _ h6,
    splitN_append_of_length _ h7, readLE_toLE _ _ h8',
    IterationsInfo_read_write _ h9, Certificate_read_write _ h10,
    splitN_append_of_length _ h11]

theorem Block_read_write (b : Block) (hw : b.wf) (rest : List Nat) :
    Block.read (b.write ++ rest) = some (b, rest) := by
  obtain ⟨h1, h2, h3⟩ := hw
  have h2' : b.txs.length < 256 ^ 4 := by norm_num at h2 ⊢; omega
  simp only [Block.write, List.append_assoc]
  unfold Block.read
  rw [Header_read_write _ h1]
  simp only [readLE_toLE _ _ h2',
    readList_writeList Transaction.read Transaction.write b.txs rest
      (fun t ht r => Transaction_read_write t (h3 t ht) r)]

theorem QuorumType_read_write (q : QuorumType) (rest : List Nat) :
    QuorumType.read (q.write ++ rest) = some (q, rest) := by
  cases q <;> rfl

theorem ValidationResult_read_write (vr : ValidationResult) (hw : vr.wf)
    (rest : List Nat) :
    ValidationResult.read (vr.write ++ rest) = some (vr, rest) := by
  obtain ⟨h1, h2⟩ := hw
  simp only [ValidationResult.write, List.append_assoc]
  unfold ValidationResult.read
  rw [StepVotes_read_write _ h1]
  simp only [Vote_read_write _ h2, QuorumType_read_write]

theorem ConsensusHeader_read_write (ch : ConsensusHeader) (hw : ch.wf)
    (rest : List Nat) :
    ConsensusHeader.read (ch.write ++ rest) = some (ch, rest) := by
  obtain ⟨h1, h2, h3⟩ := hw
  have h2' : ch.round < 256 ^ 8 := by norm_num at h2 ⊢; omega
  have h3' : ch.iteration < 256 ^ 1 := by simpa using h3
  simp only [ConsensusHeader.write, List.append_assoc]
  unfold ConsensusHeader.read
  rw [splitN_append_of_length _ h1]
  simp only [readLE_toLE _ _ h2', readLE_toLE _ _ h3']

theorem SignInfo_read_write (si : SignInfo) (hw : si.wf) (rest : List Nat) :
    SignInfo.read (si.write ++ rest) = some (si, rest) := by
  obtain ⟨h1, h2⟩ := hw
  simp only [SignInfo.write, List.append_assoc]
  unfold SignInfo.read
  rw [splitN_append_of_length _ h1]
  simp only [splitN_append_of_length _ h2]

theorem Ratification_read_write (r : Ratification) (hw : r.wf)
    (rest : List Nat) :
    Ratification.read (r.write ++ rest) = some (r, rest) := by
  obtain ⟨h1, h2, h3, h4, h5⟩ := hw
  have h3' : r.timestamp < 256 ^ 8 := by norm_num at h3 ⊢; omega
  simp only [Ratification.write, List.append_assoc]
  unfold Ratification.read
  rw [ConsensusHeader_read_write _ h1]
  simp only [Vote_read_write _ h2, readLE_toLE _ _ h3',
    ValidationResult_read_write _ h4, SignInfo_read_write _ h5]

theorem Validation_read_write (v : Validation) (hw : v.wf)
    (rest : List Nat) :
    Validation.read (v.write ++ rest) = some (v, rest) := by
  obtain ⟨h1, h2, h3⟩ := hw
  simp only [Validation.write, List.append_assoc]
  unfold Validation.read
  rw [ConsensusHeader_read_write _ h1]
  simp only [Vote_read_write _ h2, SignInfo_read_write _ h3]

theorem Candidate_read_write (c : Candidate) (hw : c.wf)
    (rest : List Nat) :
    Candidate.read (c.write ++ rest) = some (c, rest) := by
  obtain ⟨h1, h2, h3⟩ := hw
  simp only [Candidate.write, List.append_assoc]
  unfold Candidate.read
  rw [ConsensusHeader_read_write _ h1]
  simp only [Block_read_write _ h2, SignInfo_read_write _ h3]

set_option maxRecDepth 4000 in
/-- C8 (counterexample): the round-trip claim fails as universally stated —
an `IterationsInfo` with 256 entries writes its `cert_list.len() as u8`
count as 0, so reading its encoding back yields the empty
`IterationsInfo`, not the original value. -/
theorem C8_counterexample :
    IterationsInfo.read iterInfoBig.write =
        some (⟨[]⟩, List.replicate 256 0) ∧
      (⟨[]⟩ : IterationsInfo) ≠ iterInfoBig := by
  constructor
  · rfl
  · decide

/-- C8 (amended): for every well-formed value of the ten wire types —
numeric fields within their wire widths, fixed-size byte fields of their
exact lengths, list lengths below their length-prefix bound (in particular
at most 255 `IterationsInfo` entries), and error strings nonempty when
present — reading back the bytes produced by writing the value yields a
value equal to it; a `SpentTransaction` without an error additionally
leaves 4 unread zero bytes behind. -/
theorem C8_roundtrip :
    (∀ b : Block, b.wf → Block.read b.write = some (b, [])) ∧
    (∀ h : Header, h.wf → Header.read h.write = some (h, [])) ∧
    (∀ t : Transaction, t.wf → Transaction.read t.write = some (t, [])) ∧
    (∀ st : SpentTransaction, st.wf →
      SpentTransaction.read st.write =
        some (st, if st.err = none then List.replicate 4 0 else [])) ∧
    (∀ c : Certificate, c.wf → Certificate.read c.write = some (c, [])) ∧
    (∀ ii : IterationsInfo, ii.wf →
      IterationsInfo.read ii.write = some (ii, [])) ∧
    (∀ r : Ratification, r.wf → Ratification.read r.write = some (r, [])) ∧
    (∀ v : Validation, v.wf → Validation.read v.write = some (v, [])) ∧
    (∀ c : Candidate, c.wf → Candidate.read c.write = some (c, [])) ∧
    (∀ rr : RatificationResult, rr.wf →
      RatificationResult.read rr.write = some (rr, [])) := by
  refine ⟨fun x h => ?_, fun x h => ?_, fun x h => ?_, fun x h => ?_,
    fun x h => ?_, fun x h => ?_, fun x h => ?_, fun x h => ?_,
    fun x h => ?_, fun x h => ?_⟩
  · simpa using Block_read_write x h []
  · simpa using Header_read_write x h []
  · simpa using Transaction_read_write x h []
  · simpa using SpentTransaction_read_write x h []
  · simpa using Certificate_read_write x h []
  · simpa using IterationsInfo_read_write x h []
  · simpa using Ratification_read_write x h []
  · simpa using Validation_read_write x h []
  · simpa using Candidate_read_write x h []
  · simpa using RatificationResult_read_write x h []

/-- C8 (witness): the amended round-trip law evaluated at concrete
well-formed values of each of the ten types. -/
theorem C8_roundtrip_witness :
    Block.read blkEx.write = some (blkEx, []) ∧
    Header.read hdrEx.write = some (hdrEx, []) ∧
    Transaction.read txEx.write = some (txEx, []) ∧
    SpentTransaction.read stEx.write = some (stEx, []) ∧
    Certificate.read certEx.write = some (certEx, []) ∧
    IterationsInfo.read iiEx.write = some (iiEx, []) ∧
    Ratification.read ratEx.write = some (ratEx, []) ∧
    Validation.read valEx.write = some (valEx, []) ∧
    Candidate.read candEx.write = some (candEx, []) ∧
    RatificationResult.read rrEx.write = some (rrEx, []) := by
  refine ⟨C8_roundtrip.1 blkEx (by decide),
    C8_roundtrip.2.1 hdrEx (by decide),
    C8_roundtrip.2.2.1 txEx (by decide), ?_,
    C8_roundtrip.2.2.2.2.1 certEx (by decide),
    C8_roundtrip.2.2.2.2.2.1 iiEx (by decide),
    C8_roundtrip.2.2.2.2.2.2.1 ratEx (by decide),
    C8_roundtrip.2.2.2.2.2.2.2.1 valEx (by decide),
    C8_roundtrip.2.2.2.2.2.2.2.2.1 candEx (by decide),
    C8_roundtrip.2.2.2.2.2.2.2.2.2 rrEx (by decide)⟩
  have h := C8_roundtrip.2.2.2.1 stEx (by decide)
  simpa using h

/-- C9 (counterexample): decoding the byte 3 does not produce an
`io::Error`-style decoding failure — `Label::from(u8)` panics instead. -/
theorem C9_counterexample :
    Label.read [3] = ReadOutcome.panicked ∧
      Label.read [3] ≠ ReadOutcome.ioErr := by
  decide

/-- C9 (amended): `Label::read` maps byte 0 to `Accepted`, 1 to `Attested`
and 2 to `Final`; every other byte value makes it panic (it never produces
a `Label`, but the failure is a panic, not a decoding error); an empty
stream is an io error. -/
theorem C9_label_decode :
    (∀ rest, Label.read (0 :: rest) = .ok .Accepted rest) ∧
    (∀ rest, Label.read (1 :: rest) = .ok .Attested rest) ∧
    (∀ rest, Label.read (2 :: rest) = .ok .Final rest) ∧
    (∀ b rest, 3 ≤ b → Label.read (b :: rest) = .panicked) ∧
    Label.read [] = ReadOutcome.ioErr := by
  refine ⟨fun _ => rfl, fun _ => rfl, fun _ => rfl, fun b rest hb => ?_, rfl⟩
  obtain ⟨n, rfl⟩ : ∃ n, b = n + 3 := ⟨b - 3, by omega⟩
  rfl

/-- C9 (witness): the panic branch of the amended claim at byte 5. -/
theorem C9_label_decode_witness :
    3 ≤ 5 ∧ Label.read [5] = ReadOutcome.panicked :=
  ⟨by decide, C9_label_decode.2.2.2.1 5 [] (by decide)⟩

/-- C10: for every `SpentTransaction` without an error, `write` ends in the
eight zero bytes of a `u64` length marker while `read` consumes only a
four-byte `u32` length, leaving four unread zero bytes (the single-value
round trip still yields an equal value); decoding two such encodings
concatenated does not yield the original pair. -/
theorem C10_spent_asymmetry :
    (∀ st : SpentTransaction, st.wf → st.err = none →
      (∃ pre, st.write = pre ++ List.replicate 8 0) ∧
      SpentTransaction.read st.write = some (st, List.replicate 4 0)) ∧
    (∀ r, readTwoSpent (stC10.write ++ stC10.write) ≠
      some ((stC10, stC10), r)) := by
  constructor
  · intro st hw herr
    constructor
    · refine ⟨st.inner.write ++ toLE 8 st.block_height ++
        toLE 8 st.gas_spent ++ st.economic_mode, ?_⟩
      simp [SpentTransaction.write, herr, toLE_zero]
    · have h := SpentTransaction_read_write st hw []
      rw [if_pos herr] at h
      simpa using h
  · intro r h
    have hcomp : readTwoSpent (stC10.write ++ stC10.write) =
        some ((stC10, stC10shifted), List.replicate 8 0) := by rfl
    rw [hcomp] at h
    simp only [Option.some.injEq, Prod.mk.injEq] at h
    exact absurd h.1.2 (by decide)

/-- C10 (witness): the asymmetry law evaluated at `stC10`. -/
theorem C10_spent_asymmetry_witness :
    stC10.wf ∧ stC10.err = none ∧
      SpentTransaction.read stC10.write = some (stC10, List.replicate 4 0) :=
  ⟨by decide, rfl, (C10_spent_asymmetry.1 stC10 (by decide) rfl).2⟩

/-- C1 (counterexample): with two workers, a committee weight of 1 and a
quorum target of 1, two distinct agreements for the same
`(block_hash, step)` pair cause two `CollectedVotes` emissions — the
emitting worker `break`s, but the store entry is not cleared and another
worker crosses the (already-crossed) threshold again. -/
theorem C1_counterexample :
    runPool cvC1 (fun _ => true) 2 AccStore.empty [m1C1, m2C1] =
        [(1, 1), (1, 1)] ∧
      ¬(runPool cvC1 (fun _ => true) 2 AccStore.empty
          [m1C1, m2C1]).count (1, 1) ≤ 1 := by
  constructor
  · rfl
  · decide

/-- C1 (amended): each worker emits at most one `CollectedVotes` message
and then terminates, so across the lifetime of the Accumulator the output
channel receives at most `workers_amount` `CollectedVotes` messages in
total (at most one with a single worker); and an accepted fresh agreement
triggers an emission exactly when it takes the pair's cumulative weight to
the quorum target or beyond. Because the store entry for a pair is not
cleared on emission, a later accepted agreement for the same pair may
cause a further emission by another worker. -/
theorem C1_emission_bound :
    (∀ cv verOk w stores msgs,
      (runPool cv verOk w stores msgs).length ≤ w) ∧
    (∀ cv (stores : AccStore) (msg : AccMsg) weight payload,
      cv.votes_for msg.round msg.step msg.pubkey_bls = some weight →
      weight ≠ 0 → msg.payload = some payload →
      payload ∉ (stores msg.block_hash msg.step).1 →
      (accumulate cv stores msg).2 =
        decide ((stores msg.block_hash msg.step).2 + weight ≥
          cv.quorum msg.round msg.step)) := by
  constructor
  · intro cv verOk w stores msgs
    induction msgs generalizing w stores with
    | nil => cases w <;> simp [runPool]
    | cons m rest ih =>
      cases w with
      | zero => simp [runPool]
      | succ w' =>
        by_cases h0 : m.block_hash = 0
        · simpa [runPool, h0] using ih (w' + 1) stores
        · by_cases hv : verOk m = true
          · by_cases he : (accumulate cv stores m).2 = true
            · simpa [runPool, h0, hv, he] using
                Nat.succ_le_succ (ih w' (accumulate cv stores m).1)
            · simpa [runPool, h0, hv, he] using
                ih (w' + 1) (accumulate cv stores m).1
          · simpa [runPool, h0, hv] using ih (w' + 1) stores
  · intro cv stores msg weight payload hv hw hp hmem
    unfold accumulate
    rw [hv, hp]
    simp [hw, hmem]

/-- C1 (witness): the emission condition of the amended claim evaluated at
a concrete fresh agreement crossing a quorum of 1. -/
theorem C1_emission_bound_witness :
    cvC1.votes_for m1C1.round m1C1.step m1C1.pubkey_bls = some 1 ∧
      (1 : Nat) ≠ 0 ∧ m1C1.payload = some 10 ∧
      10 ∉ (AccStore.empty m1C1.block_hash m1C1.step).1 ∧
      (accumulate cvC1 AccStore.empty m1C1).2 =
        decide ((AccStore.empty m1C1.block_hash m1C1.step).2 + 1 ≥
          cvC1.quorum m1C1.round m1C1.step) :=
  ⟨rfl, by decide, rfl, by decide,
    C1_emission_bound.2 cvC1 AccStore.empty m1C1 1 10 rfl (by decide) rfl
      (by decide)⟩

/-- C7: submitting an `Agreement` payload equal to one already stored for
its `(block_hash, step)` pair leaves the store (set and cumulative weight)
unchanged and emits nothing; consequently submitting the same agreement
twice from any store grows the stored set by at most 1 and the cumulative
weight by at most `votes_for(signer, cfg)` in total. -/
theorem C7_no_duplicate_tally :
    (∀ cv (stores : AccStore) (msg : AccMsg) payload,
      msg.payload = some payload →
      payload ∈ (stores msg.block_hash msg.step).1 →
      accumulate cv stores msg = (stores, false)) ∧
    (∀ cv (stores : AccStore) (msg : AccMsg),
      ((accumulate cv (accumulate cv stores msg).1 msg).1
          msg.block_hash msg.step).1.length ≤
        (stores msg.block_hash msg.step).1.length + 1 ∧
      ((accumulate cv (accumulate cv stores msg).1 msg).1
          msg.block_hash msg.step).2 ≤
        (stores msg.block_hash msg.step).2 +
          (cv.votes_for msg.round msg.step msg.pubkey_bls).getD 0) := by
  have hdup : ∀ cv (stores : AccStore) (msg : AccMsg) payload,
      msg.payload = some payload →
      payload ∈ (stores msg.block_hash msg.step).1 →
      accumulate cv stores msg = (stores, false) := by
    intro cv stores msg payload hp hmem
    unfold accumulate
    cases hv : cv.votes_for msg.round msg.step msg.pubkey_bls with
    | none => rfl
    | some weight =>
      by_cases hw : weight = 0
      · simp [hw]
      · rw [hp]
        simp [hw, hmem]
  refine ⟨hdup, ?_⟩
  intro cv stores msg
  cases hv : cv.votes_for msg.round msg.step msg.pubkey_bls with
  | none =>
    have h1 : accumulate cv stores msg = (stores, false) := by
      unfold accumulate; rw [hv]
    rw [h1, h1]
    simp
  | some weight =>
    by_cases hw : weight = 0
    · have h1 : accumulate cv stores msg = (stores, false) := by
        unfold accumulate; rw [hv]; simp [hw]
      rw [h1, h1]
      simp
    · cases hp : msg.payload with
      | none =>
        have h1 : accumulate cv stores msg = (stores, false) := by
          unfold accumulate; rw [hv, hp]; simp [hw]
        rw [h1, h1]
        simp
      | some payload =>
        by_cases hmem : payload ∈ (stores msg.block_hash msg.step).1
        · rw [hdup cv stores msg payload hp hmem,
            hdup cv stores msg payload hp hmem]
          simp
        · have h1 : (accumulate cv stores msg).1 = fun h s =>
              if h = msg.block_hash ∧ s = msg.step then
                (payload :: (stores msg.block_hash msg.step).1,
                  (stores msg.block_hash msg.step).2 + weight)
              else stores h s := by
            unfold accumulate; rw [hv, hp]; simp [hw, hmem]
          have hat : ((accumulate cv stores msg).1
              msg.block_hash msg.step) =
              (payload :: (stores msg.block_hash msg.step).1,
                (stores msg.block_hash msg.step).2 + weight) := by
            rw [h1]; simp
          have h2 : accumulate cv (accumulate cv stores msg).1 msg =
              ((accumulate cv stores msg).1, false) :=
            hdup cv _ msg payload hp (by rw [hat]; exact List.mem_cons_self _ _)
          rw [h2, hat]
          simp [hv]

/-- C7 (witness): the duplicate-suppression law evaluated at a store that
already holds the submitted payload. -/
theorem C7_no_duplicate_tally_witness :
    m1C1.payload = some 10 ∧
      10 ∈ (storeC7 m1C1.block_hash m1C1.step).1 ∧
      accumulate cvC1 storeC7 m1C1 = (storeC7, false) :=
  ⟨rfl, by decide,
    C7_no_duplicate_tally.1 cvC1 storeC7 m1C1 10 rfl (by decide)⟩

/-- C3: if `verify_votes` succeeds on a `Valid(h)` vote, then the summed
stake-occurrences of the committee members whose bits are set in the
bitset reach the super-majority quorum `⌈2·|committee|/3⌉ + 1`, and the
aggregate BLS signature verifies under the key aggregated from exactly
those members. -/
theorem C3_quorum_soundness :
    ∀ (agg : List Nat → Nat) (blsVerify : Nat → List Nat → List Nat → Bool)
      (header : ConsensusHeader) (step : StepName) (hash : List Nat)
      (sv : StepVotes) (committee : Committee) (qr : QuorumResult),
      verify_votes agg blsVerify header step (.Valid hash) sv committee =
        .ok qr →
      Committee.total_occurrences (committee.intersect sv.bitset) ≥
          (2 * committee.totalCredits + 2) / 3 + 1 ∧
        step ≠ StepName.Proposal ∧
        ∃ pk rest,
          (committee.intersect sv.bitset).map Prod.fst = pk :: rest ∧
          blsVerify (agg (pk :: rest)) sv.aggregate_signature
            (header.write ++
              (match step with
               | StepName.Validation => VALIDATION_SIGN_SEED
               | _ => RATIFICATION_SIGN_SEED) ++
              (Vote.Valid hash).write) = true := by
  intro agg blsVerify header step hash sv committee qr h
  simp only [verify_votes, QuorumResult.quorum_reached, ge_iff_le] at h
  have hskip : ¬(step = StepName.Validation ∧
      Vote.Valid hash = Vote.NoQuorum) := by
    rintro ⟨-, hc⟩; exact Vote.noConfusion hc
  split at h
  · exact absurd h (by simp)
  · next hcond =>
    have hreached : committee.superMajorityQuorum ≤
        Committee.total_occurrences (committee.intersect sv.bitset) := by
      by_contra hlt
      exact hcond ⟨hskip, by simpa using hlt⟩
    refine ⟨by simpa [Committee.superMajorityQuorum] using hreached, ?_⟩
    split at h
    · next hbit =>
      cases hagg : aggregate_pks agg (committee.intersect sv.bitset) with
      | error e => simp only [hagg] at h; simp at h
      | ok apk =>
        simp only [hagg] at h
        cases hsig : verify_step_signature blsVerify header step
            (Vote.Valid hash) apk sv.aggregate_signature with
        | error e => simp only [hsig] at h; simp at h
        | ok u =>
          cases hmap : (committee.intersect sv.bitset).map Prod.fst with
          | nil =>
            unfold aggregate_pks at hagg
            rw [hmap] at hagg
            simp at hagg
          | cons pk rest =>
            unfold aggregate_pks at hagg
            rw [hmap] at hagg
            simp only [Except.ok.injEq] at hagg
            cases step with
            | Proposal =>
              simp only [verify_step_signature] at hsig
              simp at hsig
            | Validation =>
              simp only [verify_step_signature] at hsig
              refine ⟨by simp, pk, rest, rfl, ?_⟩
              split at hsig
              · next hbv =>
                rw [hagg]
                simpa [List.append_assoc] using hbv
              · simp at hsig
            | Ratification =>
              simp only [verify_step_signature] at hsig
              refine ⟨by simp, pk, rest, rfl, ?_⟩
              split at hsig
              · next hbv =>
                rw [hagg]
                simpa [List.append_assoc] using hbv
              · simp at hsig
    · next hbit =>
      exfalso
      have hzero : sv.bitset = 0 := by omega
      have hempty : committee.intersect sv.bitset = [] := by
        simp [Committee.intersect, hzero, Nat.zero_testBit,
          List.filter_eq_nil_iff]
      rw [hempty] at hreached
      simp [Committee.total_occurrences, Committee.superMajorityQuorum]
        at hreached

/-- C3 (witness): a successful `verify_votes` run on a one-member committee
with 3 occurrences, bitset 1 and an always-accepting BLS verifier. -/
theorem C3_quorum_soundness_witness :
    verify_votes aggC3 bvC3 chC3 StepName.Validation (.Valid hashC3) svC3
        comC3 = .ok ⟨3, 3⟩ ∧
      (Committee.total_occurrences (comC3.intersect svC3.bitset) ≥
          (2 * comC3.totalCredits + 2) / 3 + 1 ∧
        StepName.Validation ≠ StepName.Proposal ∧
        ∃ pk rest,
          (comC3.intersect svC3.bitset).map Prod.fst = pk :: rest ∧
          bvC3 (aggC3 (pk :: rest)) svC3.aggregate_signature
            (chC3.write ++ VALIDATION_SIGN_SEED ++
              (Vote.Valid hashC3).write) = true) :=
  ⟨by rfl,
    C3_quorum_soundness aggC3 bvC3 chC3 StepName.Validation hashC3 svC3
      comC3 ⟨3, 3⟩ (by rfl)⟩

/-- C4 (counterexample): at the last iteration
(`CONSENSUS_MAX_ITER - 1`), the claimed condition `iteration + 1 <
CONSENSUS_MAX_ITER` is false, yet the code (whose test is `iteration <
CONSENSUS_MAX_ITER`) still puts the next iteration's generator in the
exclusion list. -/
theorem C4_counterexample :
    ¬((id (CONSENSUS_MAX_ITER - 1 + 1) ∈
        exclusionList id (CONSENSUS_MAX_ITER - 1) CONSENSUS_MAX_ITER) ↔
      (CONSENSUS_MAX_ITER - 1) + 1 < CONSENSUS_MAX_ITER) := by
  decide

/-- C4 (amended): the exclusion list always contains the generator of the
message's iteration, and it additionally contains the generator of the
next iteration exactly when `iteration < CONSENSUS_MAX_ITER` (not
`iteration + 1 < CONSENSUS_MAX_ITER`); since every message iteration is
below `CONSENSUS_MAX_ITER`, both generators are excluded for every valid
iteration, including the last. -/
theorem C4_exclusion_list :
    ∀ (g : Nat → Nat) (iteration maxIter : Nat),
      g iteration ∈ exclusionList g iteration maxIter ∧
      (iteration < maxIter →
        exclusionList g iteration maxIter =
          [g iteration, g (iteration + 1)]) ∧
      (maxIter ≤ iteration →
        exclusionList g iteration maxIter = [g iteration]) ∧
      (g (iteration + 1) ≠ g iteration →
        (g (iteration + 1) ∈ exclusionList g iteration maxIter ↔
          iteration < maxIter)) := by
  intro g iteration maxIter
  by_cases hlt : iteration < maxIter
  · refine ⟨by simp [exclusionList, hlt], fun _ => by simp [exclusionList, hlt],
      fun hle => absurd hlt (by omega), fun hne => ?_⟩
    simp [exclusionList, hlt]
  · refine ⟨by simp [exclusionList, hlt], fun hc => absurd hc hlt,
      fun _ => by simp [exclusionList, hlt], fun hne => ?_⟩
    simp [exclusionList, hlt, hne]

/-- C4 (witness): the amended characterization at the last iteration 49
with `CONSENSUS_MAX_ITER = 50` and the identity generator map. -/
theorem C4_exclusion_list_witness :
    (49 < CONSENSUS_MAX_ITER) ∧
      exclusionList id 49 CONSENSUS_MAX_ITER = [id 49, id 50] ∧
      (id 50 ≠ id 49) ∧
      (id 50 ∈ exclusionList id 49 CONSENSUS_MAX_ITER ↔
        49 < CONSENSUS_MAX_ITER) :=
  ⟨by decide, (C4_exclusion_list id 49 CONSENSUS_MAX_ITER).2.1 (by decide),
    by decide, (C4_exclusion_list id 49 CONSENSUS_MAX_ITER).2.2.2 (by decide)⟩

/-- C6 (counterexample): a past message without a signer is rejected with
`InvalidMsgType`, not `PastEvent` — the signer lookup precedes the
past/future comparison in `is_valid`. -/
theorem C6_counterexample :
    msgCompare 0 0 0 1 0 0 = Status.Past ∧
      is_valid ⟨none, 0, 0, 0, []⟩ 1 [] 0 0 [] (.ok ()) ≠
        .error ConsensusError.PastEvent ∧
      is_valid ⟨none, 0, 0, 0, []⟩ 1 [] 0 0 [] (.ok ()) =
        .error ConsensusError.InvalidMsgType := by
  refine ⟨rfl, fun h => ?_, rfl⟩
  have h' : (Except.error ConsensusError.InvalidMsgType :
      Except ConsensusError Unit) = .error ConsensusError.PastEvent := h
  simp at h'

/-- C6 (amended): for messages that carry a signer, `is_valid` rejects past
messages with `PastEvent` and future ones with `FutureEvent`; a present
message yields `InvalidPrevBlockHash` when its previous block hash differs
from the tip, `NotCommitteeMember` when the signer is outside the step
committee, and the phase-specific `verify` result otherwise; a message
without a signer is rejected with `InvalidMsgType` regardless of timing.
`is_valid` succeeds only for a present, tip-anchored message signed by a
committee member whose payload verifies. -/
theorem C6_is_valid :
    (∀ (msg : ConsensusMsg) ruRound ruHash iteration step committee
        (verify : Except ConsensusError Unit) signer,
      msg.signer = some signer →
      (msgCompare msg.round msg.iteration msg.step ruRound iteration step =
          Status.Past →
        is_valid msg ruRound ruHash iteration step committee verify =
          .error .PastEvent) ∧
      (msgCompare msg.round msg.iteration msg.step ruRound iteration step =
          Status.Future →
        is_valid msg ruRound ruHash iteration step committee verify =
          .error .FutureEvent) ∧
      (msgCompare msg.round msg.iteration msg.step ruRound iteration step =
          Status.Present →
        msg.prev_block_hash ≠ ruHash →
        is_valid msg ruRound ruHash iteration step committee verify =
          .error (.InvalidPrevBlockHash msg.prev_block_hash)) ∧
      (msgCompare msg.round msg.iteration msg.step ruRound iteration step =
          Status.Present →
        msg.prev_block_hash = ruHash → signer ∉ committee →
        is_valid msg ruRound ruHash iteration step committee verify =
          .error .NotCommitteeMember) ∧
      (msgCompare msg.round msg.iteration msg.step ruRound iteration step =
          Status.Present →
        msg.prev_block_hash = ruHash → signer ∈ committee →
        is_valid msg ruRound ruHash iteration step committee verify =
          verify)) ∧
    (∀ (msg : ConsensusMsg) ruRound ruHash iteration step committee
        (verify : Except ConsensusError Unit),
      msg.signer = none →
      is_valid msg ruRound ruHash iteration step committee verify =
        .error .InvalidMsgType) ∧
    (∀ (msg : ConsensusMsg) ruRound ruHash iteration step committee
        (verify : Except ConsensusError Unit),
      is_valid msg ruRound ruHash iteration step committee verify =
        .ok () →
      ∃ signer, msg.signer = some signer ∧
        msgCompare msg.round msg.iteration msg.step ruRound iteration step =
          Status.Present ∧
        msg.prev_block_hash = ruHash ∧ signer ∈ committee ∧
        verify = .ok ()) := by
  refine ⟨?_, ?_, ?_⟩
  · intro msg ruRound ruHash iteration step committee verify signer hs
    refine ⟨fun hcmp => by simp [is_valid, hs, hcmp],
      fun hcmp => by simp [is_valid, hs, hcmp],
      fun hcmp hne => by simp [is_valid, hs, hcmp, hne],
      fun hcmp heq hnm => by simp [is_valid, hs, hcmp, heq, hnm],
      fun hcmp heq hm => by simp [is_valid, hs, hcmp, heq, hm]⟩
  · intro msg ruRound ruHash iteration step committee verify hs
    simp [is_valid, hs]
  · intro msg ruRound ruHash iteration step committee verify h
    cases hs : msg.signer with
    | none => simp [is_valid, hs] at h
    | some signer =>
      cases hcmp : msgCompare msg.round msg.iteration msg.step ruRound
          iteration step with
      | Past => simp [is_valid, hs, hcmp] at h
      | Future => simp [is_valid, hs, hcmp] at h
      | Present =>
        by_cases hne : msg.prev_block_hash = ruHash
        · by_cases hm : signer ∈ committee
          · refine ⟨signer, rfl, rfl, hne, hm, ?_⟩
            simpa [is_valid, hs, hcmp, hne, hm] using h
          · simp [is_valid, hs, hcmp, hne, hm] at h
        · simp [is_valid, hs, hcmp, hne] at h

/-- C6 (witness): a present, tip-anchored, committee-signed message is
delegated to `verify`. -/
theorem C6_is_valid_witness :
    msgCompare 1 0 0 1 0 0 = Status.Present ∧
      is_valid ⟨some 5, 1, 0, 0, [9]⟩ 1 [9] 0 0 [5] (.ok ()) = .ok () :=
  ⟨rfl,
    (C6_is_valid.1 ⟨some 5, 1, 0, 0, [9]⟩ 1 [9] 0 0 [5] (.ok ()) 5
      rfl).2.2.2.2 rfl rfl (by decide)⟩

/-- C2 (counterexample): with a `Final` label at height 2 above an
`Accepted` label at height 1, the scan for a pni-0 block at height 3
(non-final tip) stops at the `Final` label and returns `Final`, although
an ancestor in the window is labeled `Accepted` — contradicting the
claim's "if any ancestor in the window is labeled Accepted the block is
labeled Attested". -/
theorem C2_counterexample :
    rolling_finality CONSENSUS_ROLLING_FINALITY_THRESHOLD 0 false 3
        labelsC2 = .ok Label.Final ∧
      labelsC2 1 = some Label.Accepted ∧
      1 ∈ revRange (3 - CONSENSUS_ROLLING_FINALITY_THRESHOLD) 3 ∧
      Label.Final ≠ Label.Attested := by
  refine ⟨rfl, rfl, by decide, by decide⟩

/-- C2 (amended): with pni > 0 the block is labeled `Accepted`; with
pni = 0 and a final tip, `Final`; otherwise the acceptor scans the window
downward from `height - 1`, and the first label that is not `Attested`
decides: `Accepted` labels the block `Attested`, `Final` stops the scan
and labels it `Final` (even when an `Accepted` ancestor lies further
below), a missing label is fatal, and a window of only `Attested` labels
promotes to `Final`. -/
theorem C2_rolling_finality :
    (∀ threshold pni tipF height labels, pni ≠ 0 →
      rolling_finality threshold pni tipF height labels =
        .ok Label.Accepted) ∧
    (∀ threshold height labels,
      rolling_finality threshold 0 true height labels = .ok Label.Final) ∧
    (∀ threshold height labels,
      rolling_finality threshold 0 false height labels =
        scanLabels labels (revRange (height - threshold) height)) ∧
    (∀ (labels : Nat → Option Label) (hs : List Nat),
      (∀ h ∈ hs, labels h = some Label.Attested) →
      scanLabels labels hs = .ok Label.Final) ∧
    (∀ (labels : Nat → Option Label) (pre : List Nat) h (post : List Nat),
      (∀ x ∈ pre, labels x = some Label.Attested) →
      (labels h = some Label.Accepted →
        scanLabels labels (pre ++ h :: post) = .ok Label.Attested) ∧
      (labels h = some Label.Final →
        scanLabels labels (pre ++ h :: post) = .ok Label.Final) ∧
      (labels h = none →
        scanLabels labels (pre ++ h :: post) = .error ())) := by
  refine ⟨fun threshold pni tipF height labels hpni => by
      simp [rolling_finality, hpni],
    fun threshold height labels => by simp [rolling_finality],
    fun threshold height labels => by simp [rolling_finality], ?_, ?_⟩
  · intro labels hs hall
    induction hs with
    | nil => rfl
    | cons x xs ih =>
      have hx := hall x (by simp)
      simp only [scanLabels, hx]
      exact ih (fun y hy => hall y (List.mem_cons_of_mem _ hy))
  · intro labels pre h post hall
    induction pre with
    | nil =>
      refine ⟨fun ha => by simp [scanLabels, ha],
        fun hf => by simp [scanLabels, hf],
        fun hn => by simp [scanLabels, hn]⟩
    | cons x xs ih =>
      have hx := hall x (by simp)
      have ih' := ih (fun y hy => hall y (List.mem_cons_of_mem _ hy))
      refine ⟨fun ha => ?_, fun hf => ?_, fun hn => ?_⟩
      · simpa [scanLabels, hx] using ih'.1 ha
      · simpa [scanLabels, hx] using ih'.2.1 hf
      · simpa [scanLabels, hx] using ih'.2.2 hn

/-- C2 (witness): the first-non-`Attested` rule evaluated on a concrete
window with an `Accepted` label after one `Attested` label. -/
theorem C2_rolling_finality_witness :
    (∀ x ∈ [5], labelsC2 x = some Label.Attested) ∧
      labelsC2 1 = some Label.Accepted ∧
      scanLabels labelsC2 ([5] ++ 1 :: [0]) = .ok Label.Attested :=
  ⟨by decide, rfl,
    (C2_rolling_finality.2.2.2.2 labelsC2 [5] 1 [0] (by decide)).1 rfl⟩

theorem descRange_self (c : Nat) : descRange c c = [] := by
  cases c with
  | zero => rfl
  | succ c' => simp [descRange]

theorem descRange_succ_of_le {mh c : Nat} (h : mh ≤ c) :
    descRange (c + 1) mh = (c + 1) :: descRange c mh := by
  simp [descRange, Nat.lt_succ_of_le h, Nat.not_le.2 (Nat.lt_succ_of_le h)]

theorem revertLoop_ok (blocks : Nat → Option LBlock)
    (labels : Nat → Option Label) (target : Nat) :
    ∀ curr b l d m,
      revertLoop blocks labels target curr = .ok (b, l, d, m) →
      ∃ mh, 0 < mh ∧ mh ≤ curr ∧ blocks mh = some b ∧ labels mh = some l ∧
        b.state_hash = target ∧ d = descRange curr mh ∧
        m = ((descRange curr mh).map
          (fun h => ((blocks h).map LBlock.txs).getD [])).flatten ∧
        ∀ h, mh < h → h ≤ curr →
          ∃ bh, blocks h = some bh ∧ bh.state_hash ≠ target := by
  intro curr
  induction curr with
  | zero => intro b l d m h; simp [revertLoop] at h
  | succ c ih =>
    intro b l d m h
    simp only [revertLoop] at h
    cases hb : blocks (c + 1) with
    | none => simp [hb] at h
    | some bb =>
      simp only [hb] at h
      cases hl : labels (c + 1) with
      | none => simp [hl] at h
      | some ll =>
        simp only [hl] at h
        by_cases hst : bb.state_hash = target
        · rw [if_pos hst] at h
          simp only [Except.ok.injEq, Prod.mk.injEq] at h
          obtain ⟨hbb, hll, hd, hm⟩ := h
          subst hbb hll
          refine ⟨c + 1, Nat.succ_pos _, le_refl _, hb, hl, hst, ?_, ?_, ?_⟩
          · rw [hd.symm, descRange_self]
          · rw [hm.symm, descRange_self]; rfl
          · intro h hlt hle; omega
        · rw [if_neg hst] at h
          cases hr : revertLoop blocks labels target c with
          | error e => simp [hr] at h
          | ok tup =>
            obtain ⟨tb, tl, d0, m0⟩ := tup
            simp only [hr, Except.ok.injEq, Prod.mk.injEq] at h
            obtain ⟨htb, htl, hd, hm⟩ := h
            subst htb htl
            obtain ⟨mh, hpos, hle, hbm, hlm, hstm, hd0, hm0, hall⟩ :=
              ih tb tl d0 m0 hr
            refine ⟨mh, hpos, Nat.le_succ_of_le hle, hbm, hlm, hstm,
              ?_, ?_, ?_⟩
            · rw [hd.symm, hd0, descRange_succ_of_le hle]
            · rw [hm.symm, hm0, descRange_succ_of_le hle]
              simp [hb]
            · intro h hlt hle'
              rcases Nat.lt_succ_iff_lt_or_eq.1 (Nat.lt_succ_of_le hle')
                  with hlt' | heq
              · exact hall h hlt (by omega)
              · subst heq; exact ⟨bb, hb, hst⟩

theorem revertLoop_error (blocks : Nat → Option LBlock)
    (labels : Nat → Option Label) (target : Nat) :
    ∀ curr,
      (∀ h bh, 0 < h → h ≤ curr → blocks h = some bh →
        bh.state_hash ≠ target) →
      revertLoop blocks labels target curr = .error () := by
  intro curr
  induction curr with
  | zero => intro _; rfl
  | succ c ih =>
    intro hno
    simp only [revertLoop]
    cases hb : blocks (c + 1) with
    | none => rfl
    | some bb =>
      cases hl : labels (c + 1) with
      | none => rfl
      | some ll =>
        dsimp only
        rw [if_neg (hno (c + 1) bb (Nat.succ_pos _) (le_refl _) hb)]
        rw [ih (fun h bh hpos hle hbh =>
          hno h bh hpos (Nat.le_succ_of_le hle) hbh)]

/-- C5: if `try_revert` succeeds, the returned tip is a ledger block whose
`state_hash` equals the VM's target state root, kept with its stored
label; every block strictly above it up to the old tip was walked, does
not match the target, is deleted in top-down order, and its transactions
are re-injected into the mempool in the same order; and when no block at
heights 1..curr matches the target (the walk reaches height 0),
`try_revert` fails. -/
theorem C5_revert :
    (∀ (blocks : Nat → Option LBlock) (labels : Nat → Option Label)
        (target curr : Nat) b l d m,
      try_revert blocks labels target curr = .ok (b, l, d, m) →
      b.state_hash = target ∧
      ∃ mh, 0 < mh ∧ mh ≤ curr ∧ blocks mh = some b ∧ labels mh = some l ∧
        d = descRange curr mh ∧
        m = ((descRange curr mh).map
          (fun h => ((blocks h).map LBlock.txs).getD [])).flatten ∧
        ∀ h, mh < h → h ≤ curr →
          ∃ bh, blocks h = some bh ∧ bh.state_hash ≠ target) ∧
    (∀ (blocks : Nat → Option LBlock) (labels : Nat → Option Label)
        (target curr : Nat),
      (∀ h bh, 0 < h → h ≤ curr → blocks h = some bh →
        bh.state_hash ≠ target) →
      try_revert blocks labels target curr = .error ()) := by
  constructor
  · intro blocks labels target curr b l d m h
    unfold try_revert at h
    cases hr : revertLoop blocks labels target curr with
    | error e => simp [hr] at h
    | ok tup =>
      obtain ⟨b0, l0, d0, m0⟩ := tup
      simp only [hr] at h
      by_cases hst : b0.state_hash = target
      · rw [if_neg (by simpa using hst)] at h
        simp only [Except.ok.injEq, Prod.mk.injEq] at h
        obtain ⟨hb0, hl0, hd0, hm0⟩ := h
        subst hb0 hl0 hd0 hm0
        obtain ⟨mh, hpos, hle, hbm, hlm, _, hd, hm, hall⟩ :=
          revertLoop_ok blocks labels target curr b0 l0 d0 m0 hr
        exact ⟨hst, mh, hpos, hle, hbm, hlm, hd, hm, hall⟩
      · rw [if_pos (by simpa using hst)] at h
        simp at h
  · intro blocks labels target curr hno
    unfold try_revert
    rw [revertLoop_error blocks labels target curr hno]

/-- C5 (witness): reverting a three-block ledger to the state root 5 found
at height 2 deletes height 3, re-injects its transaction, and makes the
height-2 block (with its stored label) the new tip. -/
theorem C5_revert_witness :
    try_revert blocksC5 labelsC5 5 3 =
        .ok (⟨5, [21]⟩, Label.Attested, [3], [31]) ∧
      (⟨5, [21]⟩ : LBlock).state_hash = 5 :=
  ⟨rfl, (C5_revert.1 blocksC5 labelsC5 5 3 ⟨5, [21]⟩ Label.Attested [3] [31]
    rfl).1⟩

end Rusk
